import Mathlib
/-!
Verification of the catalog storage-and-search subsystem of the
gke-hackathon-microservices-demo repository.
Strings from the Go sources are embedded as lists of characters
(`Str := List Char`); Go's `strings.ToLower`, `strings.Contains` and
`strings.Split(s, ",")` are embedded as `strToLower`, `strContains` and
`splitComma`.  The product-catalog gRPC service
(`src/productcatalogservice`, plus the service file whose name is
unknown, `src/unnamed/part_001`) is embedded as pure functions: the
outcome of `loadCatalog` is passed in as an `Option (List Product)`
(`none` = load error), and the AlloyDB single-row query of
`single_product_loader.go` is embedded over an explicit table of rows
plus a connectivity flag.  Money amounts are integers, as in the proto.
-/
abbrev Str := List Char

/-- Embedding of Go `strings.ToLower` (character-wise lowering; `Char.toLower`
is exactly the ASCII lowering Go performs on ASCII input). -/
def strToLower (s : Str) : Str := s.map Char.toLower

/-- Embedding of Go `strings.Contains s sub`: `sub` occurs contiguously in `s`. -/
def strContains (s sub : Str) : Bool := decide (sub <:+: s)

/-- Auxiliary splitter: accumulates the current field (reversed) and cuts at commas. -/
def splitCommaAux : List Char → List Char → List (List Char)
  | [], acc => [acc.reverse]
  | ch :: rest, acc =>
    if ch = ',' then acc.reverse :: splitCommaAux rest []
    else splitCommaAux rest (ch :: acc)

/-- Embedding of Go `strings.Split(s, ",")`. -/
def splitComma (s : Str) : List Str := splitCommaAux s []

/-- Character is an ASCII uppercase letter. -/
def isUpperAscii (c : Char) : Prop := 65 ≤ c.toNat ∧ c.toNat ≤ 90

/-- Embedding of the `pb.Product` message used by the catalog service and the
frontend (`id`, `name`, `description`, `picture`, `price_usd`, `categories`). -/
structure Product where
  id : Str
  name : Str
  description : Str
  picture : Str
  currencyCode : Str
  units : Int
  nanos : Int
  categories : List Str
deriving DecidableEq

/-- Error type of the serving path: gRPC `codes.NotFound` carrying the id. -/
inductive CatalogError where
  | notFound (id : Str)
deriving DecidableEq

/-- Embedding of `productCatalog.parseCatalog` (src/unnamed/part_001): reload the
catalog when the reload flag is set or the cached catalog is empty; on a load
error return the empty product list. `loadResult` is the outcome of
`loadCatalog` (`none` = error). -/
def parseCatalog (reloadCatalog : Bool) (catalog : List Product)
    (loadResult : Option (List Product)) : List Product :=
  if reloadCatalog || catalog.length == 0 then
    match loadResult with
    | none => []
    | some loaded => loaded
  else catalog

/-- Embedding of `getProductsFromCache` (src/unnamed/part_001): always returns
the parsed catalog with a nil error. -/
def getProductsFromCache (reloadCatalog : Bool) (catalog : List Product)
    (loadResult : Option (List Product)) : Except CatalogError (List Product) :=
  .ok (parseCatalog reloadCatalog catalog loadResult)

/-- Embedding of `getProductFromCache` (src/unnamed/part_001): first product of
the parsed catalog whose id equals the requested id, else gRPC NotFound. -/
def getProductFromCache (reloadCatalog : Bool) (catalog : List Product)
    (loadResult : Option (List Product)) (productID : Str) :
    Except CatalogError Product :=
  match (parseCatalog reloadCatalog catalog loadResult).find?
      (fun p => decide (productID = p.id)) with
  | some p => .ok p
  | none => .error (.notFound productID)

/-- Embedding of `getProductsFromDatabase` (src/unnamed/part_001): force a fresh
`loadCatalog` (outcome `dbLoad`); on error fall back to the cache path. -/
def getProductsFromDatabase (dbLoad : Option (List Product)) (reloadCatalog : Bool)
    (catalog : List Product) (cacheLoad : Option (List Product)) :
    Except CatalogError (List Product) :=
  match dbLoad with
  | none => getProductsFromCache reloadCatalog catalog cacheLoad
  | some fresh => .ok fresh

/-- Match predicate of `searchProductsFromCache` / `searchProductsFromDatabase`
(src/src/productcatalogservice/product_catalog_search.go): case-insensitive
substring match over name or description (categories are not consulted). -/
def searchMatches (query : Str) (p : Product) : Bool :=
  strContains (strToLower p.name) (strToLower query)
    || strContains (strToLower p.description) (strToLower query)

/-- Embedding of `searchProductsFromCache`
(src/src/productcatalogservice/product_catalog_search.go). -/
def searchProductsFromCache (reloadCatalog : Bool) (catalog : List Product)
    (loadResult : Option (List Product)) (query : Str) :
    Except CatalogError (List Product) :=
  .ok ((parseCatalog reloadCatalog catalog loadResult).filter (searchMatches query))

/-- Embedding of `searchProductsFromDatabase`
(src/src/productcatalogservice/product_catalog_search.go): fresh load, filter
the fresh catalog, and on a load error fall back to the cache search. -/
def searchProductsFromDatabase (dbLoad : Option (List Product)) (reloadCatalog : Bool)
    (catalog : List Product) (cacheLoad : Option (List Product)) (query : Str) :
    Except CatalogError (List Product) :=
  match dbLoad with
  | none => searchProductsFromCache reloadCatalog catalog cacheLoad query
  | some fresh => .ok (fresh.filter (searchMatches query))

/-- Embedding of `shouldUseDatabase` (src/unnamed/part_001).
`enableSelectiveRouting` and `alloydbClusterName` are the values of the
corresponding environment variables, `useDatabaseMD` the values of the
`use-database` gRPC metadata key (`none` = no incoming metadata). -/
def shouldUseDatabase (enableSelectiveRouting alloydbClusterName : Str)
    (useDatabaseMD : Option (List Str)) : Bool :=
  if enableSelectiveRouting ≠ "true".data then
    alloydbClusterName ≠ []
  else
    match useDatabaseMD with
    | some (v :: _) => if v = "true".data then true else false
    | _ => false

/-- Error outcomes of the AlloyDB single-row query in
`loadSingleProductFromAlloyDB`: the scan of an absent row fails with
`pgx.ErrNoRows`; every connection-level failure (secret fetch, dialer, pool) is
a transport error.  The caller does not distinguish the two. -/
inductive AlloyDBError where
  | noRows
  | transport
deriving DecidableEq

/-- Embedding of a row of the `catalog_items` table as scanned by
`loadSingleProductFromAlloyDB` (categories is a single comma-joined TEXT). -/
structure CatalogRow where
  id : Str
  name : Str
  description : Str
  picture : Str
  currencyCode : Str
  units : Int
  nanos : Int
  categories : Str
deriving DecidableEq

/-- Row-to-product mapping performed at the end of
`loadSingleProductFromAlloyDB`
(src/src/productcatalogservice/single_product_loader.go, lines 100-116):
`categories = strings.ToLower(categories); product.Categories =
strings.Split(categories, ",")`. -/
def rowToProduct (row : CatalogRow) : Product :=
  { id := row.id, name := row.name, description := row.description,
    picture := row.picture, currencyCode := row.currencyCode,
    units := row.units, nanos := row.nanos,
    categories := splitComma (strToLower row.categories) }

/-- Embedding of `loadSingleProductFromAlloyDB`
(src/src/productcatalogservice/single_product_loader.go): on a connection
failure a transport error; otherwise the `WHERE id = $1 LIMIT 1` row scan,
which yields `pgx.ErrNoRows` when no row matches. -/
def loadSingleProductFromAlloyDB (connOk : Bool) (table : List CatalogRow)
    (productID : Str) : Except AlloyDBError Product :=
  if connOk = false then .error .transport
  else
    match table.find? (fun row => decide (row.id = productID)) with
    | none => .error .noRows
    | some row => .ok (rowToProduct row)

/-- Embedding of `getProductFromDatabase` (src/unnamed/part_001): if AlloyDB is
not configured, or the AlloyDB lookup returns any error, fall back to the
cache lookup; otherwise return the database product. -/
def getProductFromDatabase (alloydbClusterName : Str) (connOk : Bool)
    (table : List CatalogRow) (reloadCatalog : Bool) (catalog : List Product)
    (cacheLoad : Option (List Product)) (productID : Str) :
    Except CatalogError Product :=
  if alloydbClusterName = [] then
    getProductFromCache reloadCatalog catalog cacheLoad productID
  else
    match loadSingleProductFromAlloyDB connOk table productID with
    | .error _ => getProductFromCache reloadCatalog catalog cacheLoad productID
    | .ok p => .ok p

/-- Embedding of the `GetProduct` RPC (src/unnamed/part_001): route per
`shouldUseDatabase`, then dispatch to the database or cache lookup. -/
def getProduct (enableSelectiveRouting alloydbClusterName : Str)
    (useDatabaseMD : Option (List Str)) (connOk : Bool) (table : List CatalogRow)
    (reloadCatalog : Bool) (catalog : List Product)
    (cacheLoad : Option (List Product)) (productID : Str) :
    Except CatalogError Product :=
  if shouldUseDatabase enableSelectiveRouting alloydbClusterName useDatabaseMD then
    getProductFromDatabase alloydbClusterName connOk table reloadCatalog catalog
      cacheLoad productID
  else getProductFromCache reloadCatalog catalog cacheLoad productID

/-- Match predicate of the frontend fallback search
(src/src/frontend/handlers.go, `fallbackSearchHandler`): name, description, or
any category tag contains the lowercased query. -/
def fallbackMatches (queryLower : Str) (p : Product) : Bool :=
  strContains (strToLower p.name) queryLower
    || strContains (strToLower p.description) queryLower
    || p.categories.any (fun cat => strContains (strToLower cat) queryLower)

/-- Loop of `fallbackSearchHandler` (src/src/frontend/handlers.go, lines
1652-1679): append each matching product and break as soon as ten matches have
been collected. -/
def fallbackSearchAux (queryLower : Str) (ps : List Product)
    (matched : List Product) : List Product :=
  match ps with
  | [] => matched
  | p :: rest =>
    let matched2 := if fallbackMatches queryLower p then matched ++ [p] else matched
    if 10 ≤ matched2.length then matched2
    else fallbackSearchAux queryLower rest matched2

/-- Embedding of the frontend fallback keyword search
(src/src/frontend/handlers.go): lowercase the query once, then run the
collect-at-most-ten loop over the product list. -/
def fallbackSearch (query : Str) (ps : List Product) : List Product :=
  fallbackSearchAux (strToLower query) ps []

/-- Embedding of one row of the hybrid vector query of
docs/load-products.md (lines 176-183): for the two fixed query vectors the
`<=>` distances of the row are `textDist` and `imageDist`;
`hasImageEmbedding` is the `product_image_embedding IS NOT NULL` filter. -/
structure CatalogItemRow where
  id : Str
  name : Str
  textDist : ℚ
  imageDist : ℚ
  hasImageEmbedding : Bool
deriving DecidableEq

/-- Score of the documented hybrid query:
`wT*(product_embedding <=> $1) + wI*(product_image_embedding <=> $2)`
(docs/load-products.md uses the default weights 0.6 and 0.4). -/
def hybridScore (wT wI : ℚ) (row : CatalogItemRow) : ℚ :=
  wT * row.textDist + wI * row.imageDist
instance hybridScoreLEDec (wT wI : ℚ) :
    DecidableRel (fun a b : CatalogItemRow => hybridScore wT wI a ≤ hybridScore wT wI b) :=
  fun _ _ => inferInstanceAs (Decidable (_ ≤ _))

/-- Embedding of the documented hybrid query (docs/load-products.md, lines
176-183): keep rows with an image embedding, `ORDER BY score ASC`, `LIMIT 10`.
`ORDER BY` guarantees only sortedness by score; the order among equal scores is
unspecified, realised here by a concrete sort on the score alone. -/
def hybridQuery (wT wI : ℚ) (rows : List CatalogItemRow) : List CatalogItemRow :=
  (List.insertionSort
      (fun a b => hybridScore wT wI a ≤ hybridScore wT wI b)
      (rows.filter (fun row => row.hasImageEmbedding))).take 10

/-- Modelled from the spec: `tools/import_products.py` is not in the source
tree; the ingestion candidate follows §3 IngestionCandidate and the validation
step of tools/catalog-importer.md (ids and categories abstracted to `ℕ`;
`valid` records whether title, description, price and primary image are all
present). -/
structure Candidate where
  id : ℕ
  category : ℕ
  valid : Bool
deriving DecidableEq

/-- Modelled from the spec: run parameters of the importer
(tools/catalog-importer.md, CLI arguments `--sample-size`,
`--max-per-category`, `--cap-relax-start`, `--cap-relax-factor`,
`--cap-relax-final`). -/
structure IngestParams where
  target : ℕ
  baseCap : ℕ
  relaxStart : ℚ
  relaxFactor : ℚ
  relaxFinal : ℚ

/-- Run progress, measured as fraction of target reached. -/
def ingestProgress (P : IngestParams) (accepted : ℕ) : ℚ :=
  (accepted : ℚ) / (P.target : ℚ)

/-- Modelled from the spec: the staged per-category cap of
tools/catalog-importer.md §Ingestion Logic, step 4: strict `base_cap` below
`relax_start`, `ceil(base_cap * cap_relax_factor)` below `relax_final`, no cap
afterwards. -/
def capAt (P : IngestParams) (accepted : ℕ) : Option ℕ :=
  if ingestProgress P accepted < P.relaxStart then some P.baseCap
  else if ingestProgress P accepted < P.relaxFinal then
    some (Nat.ceil ((P.baseCap : ℚ) * P.relaxFactor))
  else none

/-- The staged cap as a value in `WithTop ℕ` (`⊤` = no cap), as a function of
the accepted count. -/
def capTop (P : IngestParams) (accepted : ℕ) : WithTop ℕ :=
  match capAt P accepted with
  | some k => (k : WithTop ℕ)
  | none => ⊤

/-- Modelled from the spec: per-run ingestion state — candidate ids already
seen in this execution and the accepted candidates in acceptance order. -/
structure RunState where
  seen : List ℕ
  accepted : List Candidate
deriving DecidableEq

/-- Accepted count of one category in the run state. -/
def catCount (st : RunState) (cat : ℕ) : ℕ :=
  st.accepted.countP (fun c => c.category == cat)

/-- Modelled from the spec: one step of the importer loop
(tools/catalog-importer.md §Ingestion Logic): stop at target, dedup by run,
skip ids already in the store, validate, enforce the staged cap, accept. -/
def ingestStep (P : IngestParams) (db : List ℕ) (st : RunState) (c : Candidate) :
    RunState :=
  if st.accepted.length = P.target then st
  else if c.id ∈ st.seen then st
  else if c.id ∈ db then { st with seen := c.id :: st.seen }
  else if c.valid = false then { st with seen := c.id :: st.seen }
  else
    match capAt P st.accepted.length with
    | some cap =>
      if catCount st c.category < cap then
        { seen := c.id :: st.seen, accepted := st.accepted ++ [c] }
      else { st with seen := c.id :: st.seen }
    | none => { seen := c.id :: st.seen, accepted := st.accepted ++ [c] }

/-- Modelled from the spec: a whole ingestion run — fold the step over the
candidate stream, starting from the empty state. -/
def runIngest (P : IngestParams) (db : List ℕ) (cands : List Candidate) : RunState :=
  cands.foldl (ingestStep P db) ⟨[], []⟩

/-- Modelled from the spec: outcome of a run — the accepted records and the
under-fill warning flag (tools/catalog-importer.md §Ingestion Logic, step 7:
"logs a warning if underfilled"); exhaustion of the input is never an error. -/
structure IngestOutcome where
  accepted : List Candidate
  underfillWarning : Bool
deriving DecidableEq

/-- Modelled from the spec: run the importer and report the outcome. -/
def runImport (P : IngestParams) (db : List ℕ) (cands : List Candidate) :
    IngestOutcome :=
  let st := runIngest P db cands
  ⟨st.accepted, decide (st.accepted.length < P.target)⟩

/-- Parameters of the fairness claim: `baseCap = 5`, `relaxStart = 0.5`,
`relaxFactor = 1.5`, with target and relax-final free. -/
def fairnessParams (target : ℕ) (relaxFinal : ℚ) : IngestParams :=
  ⟨target, 5, 1/2, 3/2, relaxFinal⟩

/-- Fairness invariant of a run state: while progress is below `relaxStart`
no category holds more than `baseCap` accepted items, and while progress is
below `relaxFinal` no category holds more than
`ceil(baseCap * relaxFactor)`. -/
def FairInv (P : IngestParams) (st : RunState) : Prop :=
  ∀ cat : ℕ,
    (ingestProgress P st.accepted.length < P.relaxStart →
        catCount st cat ≤ P.baseCap)
    ∧ (ingestProgress P st.accepted.length < P.relaxFinal →
        catCount st cat ≤ Nat.ceil ((P.baseCap : ℚ) * P.relaxFactor))

/-- Parameters of the under-fill scenario: target 1000 with the default
`relax-final` fraction 0.9. -/
def scenarioParams : IngestParams := fairnessParams 1000 (9/10)

/-- The under-fill scenario feed: 1000 candidates, the first 950 valid with
pairwise distinct ids and categories, the last 50 invalid. -/
def scenarioCands : List Candidate :=
  ((List.range 950).map (fun i => ⟨i, i, true⟩))
    ++ ((List.range 50).map (fun i => ⟨950 + i, 0, false⟩))
instance exceptDecEq {ε α : Type} [DecidableEq ε] [DecidableEq α] :
    DecidableEq (Except ε α) := fun a b =>
  match a, b with
  | .error e, .error f =>
    if h : e = f then .isTrue (by rw [h]) else
      .isFalse (fun hh => h (by injection hh))
  | .error _, .ok _ => .isFalse (fun hh => by injection hh)
  | .ok _, .error _ => .isFalse (fun hh => by injection hh)
  | .ok x, .ok y =>
    if h : x = y then .isTrue (by rw [h]) else
      .isFalse (fun hh => h (by injection hh))

/-- Concrete product whose only keyword occurrence is in a category tag. -/
def catOnlyProduct : Product :=
  ⟨"c1".data, "x".data, "y".data, [], "USD".data, 1, 0, ["shoes".data]⟩

/-- Concrete cached product used by the fallback counterexamples. -/
def demoCachedProduct : Product :=
  ⟨"p1".data, "hat".data, "a hat".data, [], "USD".data, 10, 0, ["accessories".data]⟩

/-- Concrete AlloyDB row whose comma-joined categories field repeats a tag. -/
def dupRow : CatalogRow :=
  ⟨"p2".data, "boot".data, "a boot".data, [], "USD".data, 5, 0, "shoes,shoes".data⟩

/-- Two rows with equal hybrid scores, listed with the larger id first. -/
def tieRowB : CatalogItemRow := ⟨"b".data, "b".data, 1, 1, true⟩

/-- The equal-score row with the smaller id. -/
def tieRowA : CatalogItemRow := ⟨"a".data, "a".data, 1, 1, true⟩

/-- Concrete row with the documented example distances 0.2 and 0.4. -/
def hybridExampleRow : CatalogItemRow := ⟨"x".data, "x".data, 1/5, 2/5, true⟩

/-- C2: routing decision of `shouldUseDatabase`: with selective routing
disabled the Record Store is chosen iff `ALLOYDB_CLUSTER_NAME` is non-empty;
with it enabled the Store is chosen iff the request carries the
`use-database: true` directive, and the default is the cache. -/
theorem c2_source_router_resolve (enableSelectiveRouting alloydbClusterName : Str)
    (useDatabaseMD : Option (List Str)) :
    shouldUseDatabase enableSelectiveRouting alloydbClusterName useDatabaseMD = true ↔
      ((enableSelectiveRouting ≠ "true".data ∧ alloydbClusterName ≠ [])
        ∨ (enableSelectiveRouting = "true".data
            ∧ ∃ rest, useDatabaseMD = some ("true".data :: rest))) := by
  by_cases he : enableSelectiveRouting = "true".data
  · rcases useDatabaseMD with _ | md
    · simp [shouldUseDatabase, he]
    · cases md with
      | nil => simp [shouldUseDatabase, he]
      | cons v rest =>
        by_cases hv : v = "true".data <;>
          simp [shouldUseDatabase, he, hv]
  · simp [shouldUseDatabase, he]

/-- C9: cache-path operations are total in the error dimension: list and
search from cache always return `ok`; with an empty cache and a failing
loader, `parseCatalog` yields `[]`, listing and search return empty `ok`
results, and a cache lookup by id returns NotFound. -/
theorem c9_cache_paths_total (reloadCatalog : Bool) (catalog : List Product)
    (loadResult : Option (List Product)) (query productID : Str) :
    (∃ v, getProductsFromCache reloadCatalog catalog loadResult = .ok v)
    ∧ (∃ v, searchProductsFromCache reloadCatalog catalog loadResult query = .ok v)
    ∧ parseCatalog reloadCatalog [] none = []
    ∧ getProductsFromCache reloadCatalog [] none = .ok []
    ∧ searchProductsFromCache reloadCatalog [] none query = .ok []
    ∧ getProductFromCache reloadCatalog [] none productID
        = .error (.notFound productID) := by
  refine ⟨⟨_, rfl⟩, ⟨_, rfl⟩, ?_, ?_, ?_, ?_⟩ <;> cases reloadCatalog <;> rfl

/-- C4 counterexample: the query "shoes" is a (lowercased) substring of a
category tag of `catOnlyProduct`, yet the keyword search returns no match —
the implementation matches only name and description, not category tags. -/
theorem c4_counterexample :
    (catOnlyProduct.categories.any
        (fun cat => strContains (strToLower cat) (strToLower "shoes".data)) = true)
    ∧ searchProductsFromCache false [catOnlyProduct] none "shoes".data = .ok [] := by
  exact ⟨by decide, by decide⟩

/-- C4 amended: `byKeyword` returns exactly the products whose lowercased name
or lowercased description contains the lowercased query as a substring;
category tags are not consulted.  This holds for the cache search and for the
database search over a freshly loaded catalog. -/
theorem c4_amended_keyword_match (reloadCatalog : Bool) (catalog fresh : List Product)
    (loadResult : Option (List Product)) (query : Str) (p : Product) :
    searchProductsFromCache reloadCatalog catalog loadResult query
        = .ok ((parseCatalog reloadCatalog catalog loadResult).filter (searchMatches query))
    ∧ (p ∈ (parseCatalog reloadCatalog catalog loadResult).filter (searchMatches query)
        ↔ p ∈ parseCatalog reloadCatalog catalog loadResult
          ∧ (strContains (strToLower p.name) (strToLower query) = true
              ∨ strContains (strToLower p.description) (strToLower query) = true))
    ∧ searchProductsFromDatabase (some fresh) reloadCatalog catalog loadResult query
        = .ok (fresh.filter (searchMatches query))
    ∧ (p ∈ fresh.filter (searchMatches query)
        ↔ p ∈ fresh
          ∧ (strContains (strToLower p.name) (strToLower query) = true
              ∨ strContains (strToLower p.description) (strToLower query) = true)) := by
  refine ⟨rfl, ?_, rfl, ?_⟩ <;>
    simp [List.mem_filter, searchMatches, Bool.or_eq_true]

/-- C1 counterexample: AlloyDB is configured and reachable but holds no row
for "p1" (the authoritative no-record outcome, surfacing as `pgx.ErrNoRows`);
the cache holds "p1".  `GetProduct` serves the cached record instead of
propagating NotFound. -/
theorem c1_counterexample :
    loadSingleProductFromAlloyDB true [] "p1".data = .error .noRows
    ∧ getProduct [] "cluster".data none true [] false [demoCachedProduct] none "p1".data
        = .ok demoCachedProduct
    ∧ (Except.ok demoCachedProduct
        ≠ (.error (.notFound "p1".data) : Except CatalogError Product)) := by
  exact ⟨rfl, rfl, by decide⟩

/-- C1 amended: on a forced single-record lookup with the store configured,
every error of the AlloyDB read — the authoritative no-rows outcome included —
falls back to the cache lookup; only a successful read returns the store's
record.  NotFound reaches the caller only when the cache lookup also misses. -/
theorem c1_amended_store_miss_falls_back (alloydbClusterName : Str) (connOk : Bool)
    (table : List CatalogRow) (reloadCatalog : Bool) (catalog : List Product)
    (cacheLoad : Option (List Product)) (productID : Str)
    (hconf : alloydbClusterName ≠ []) :
    (∀ e, loadSingleProductFromAlloyDB connOk table productID = .error e →
        getProductFromDatabase alloydbClusterName connOk table reloadCatalog catalog
            cacheLoad productID
          = getProductFromCache reloadCatalog catalog cacheLoad productID)
    ∧ (∀ p, loadSingleProductFromAlloyDB connOk table productID = .ok p →
        getProductFromDatabase alloydbClusterName connOk table reloadCatalog catalog
            cacheLoad productID = .ok p) := by
  unfold getProductFromDatabase
  rw [if_neg hconf]
  exact ⟨fun e he => by rw [he], fun p hp => by rw [hp]⟩

/-- Witness for the amended C1 theorem at a concrete store miss. -/
theorem c1_amended_witness :
    getProductFromDatabase "cluster".data true [] false [demoCachedProduct] none "p1".data
      = getProductFromCache false [demoCachedProduct] none "p1".data :=
  (c1_amended_store_miss_falls_back "cluster".data true [] false [demoCachedProduct]
    none "p1".data (by decide)).1 .noRows rfl

/-- C3: a transport-level failure of the Record Store read (failed catalog
load, or no connectivity for the single-row query) makes list, keyword search
and single-record lookup fall back to the corresponding Snapshot Cache result;
in particular a forced `byId` for a record present in the cache returns the
cached record. -/
theorem c3_transport_failure_falls_back (alloydbClusterName : Str)
    (table : List CatalogRow) (reloadCatalog : Bool) (catalog : List Product)
    (cacheLoad : Option (List Product)) (query productID : Str) :
    getProductsFromDatabase none reloadCatalog catalog cacheLoad
        = getProductsFromCache reloadCatalog catalog cacheLoad
    ∧ searchProductsFromDatabase none reloadCatalog catalog cacheLoad query
        = searchProductsFromCache reloadCatalog catalog cacheLoad query
    ∧ getProductFromDatabase alloydbClusterName false table reloadCatalog catalog
          cacheLoad productID
        = getProductFromCache reloadCatalog catalog cacheLoad productID
    ∧ (∀ p, (parseCatalog reloadCatalog catalog cacheLoad).find?
          (fun x => decide (productID = x.id)) = some p →
        getProductFromDatabase alloydbClusterName false table reloadCatalog catalog
          cacheLoad productID = .ok p) := by
  have hfall : getProductFromDatabase alloydbClusterName false table reloadCatalog
      catalog cacheLoad productID
      = getProductFromCache reloadCatalog catalog cacheLoad productID := by
    unfold getProductFromDatabase
    by_cases h : alloydbClusterName = []
    · rw [if_pos h]
    · rw [if_neg h]
      rfl
  refine ⟨rfl, rfl, hfall, fun p hp => ?_⟩
  rw [hfall]
  unfold getProductFromCache
  rw [hp]

/-- Witness for C3 at a concrete transport failure with the record cached. -/
theorem c3_witness :
    getProductFromDatabase "cluster".data false [] false [demoCachedProduct] none "p1".data
      = .ok demoCachedProduct :=
  (c3_transport_failure_falls_back "cluster".data [] false [demoCachedProduct] none
    "q".data "p1".data).2.2.2 demoCachedProduct rfl
theorem fallbackSearchAux_spec (queryLower : Str) :
    ∀ (ps : List Product) (matched : List Product), matched.length < 10 →
      fallbackSearchAux queryLower ps matched
        = matched ++ (ps.filter (fallbackMatches queryLower)).take (10 - matched.length) := by
  intro ps
  induction ps with
  | nil => intro matched _; simp [fallbackSearchAux]
  | cons p rest ih =>
    intro matched hlt
    by_cases hm : fallbackMatches queryLower p = true
    · by_cases h10 : 10 ≤ (matched ++ [p]).length
      · have hlen : matched.length = 9 := by
          simp only [List.length_append, List.length_cons, List.length_nil] at h10
          omega
        have htake : 10 - matched.length = 1 := by omega
        simp only [fallbackSearchAux, hm, if_true, h10, List.filter_cons, htake,
          List.take_succ_cons, List.take_zero]
      · have h2 : (matched ++ [p]).length < 10 := by omega
        have hrec := ih (matched ++ [p]) h2
        have hlen2 : (matched ++ [p]).length = matched.length + 1 := by
          simp [List.length_append]
        have hsub : 10 - (matched ++ [p]).length = (10 - matched.length) - 1 := by
          omega
        have htake : 10 - matched.length = ((10 - matched.length) - 1) + 1 := by omega
        simp only [fallbackSearchAux, hm, if_true, h10, if_false, hrec, hsub,
          List.filter_cons]
        rw [htake, List.take_succ_cons, List.append_assoc]
        rfl
    · have hm2 : fallbackMatches queryLower p = false := by
        cases h : fallbackMatches queryLower p
        · rfl
        · exact absurd h hm
      have h10 : ¬ 10 ≤ matched.length := by omega
      simp only [fallbackSearchAux, hm2, Bool.false_eq_true, if_false, h10,
        List.filter_cons]
      exact ih matched hlt

/-- C10: the frontend fallback keyword search collects matches in catalog
order and stops as soon as ten are found: its result is exactly the first ten
matches and thus never longer than ten; matches later in the catalog are
dropped. -/
theorem c10_fallback_search_limit (query : Str) (ps : List Product) :
    fallbackSearch query ps
        = (ps.filter (fallbackMatches (strToLower query))).take 10
    ∧ (fallbackSearch query ps).length ≤ 10 := by
  have h := fallbackSearchAux_spec (strToLower query) ps [] (by simp)
  constructor
  · rw [fallbackSearch, h]
    simp
  · rw [fallbackSearch, h]
    simp only [List.nil_append, List.length_nil, Nat.sub_zero]
    exact List.length_take_le 10 _

/-- C8 counterexample: a stored categories value "shoes,shoes" is split
verbatim, so the returned record's categories list contains the same tag
twice — the single-record loader never deduplicates. -/
theorem c8_counterexample :
    loadSingleProductFromAlloyDB true [dupRow] "p2".data = .ok (rowToProduct dupRow)
    ∧ (rowToProduct dupRow).categories = ["shoes".data, "shoes".data]
    ∧ ¬ (rowToProduct dupRow).categories.Nodup := by
  exact ⟨rfl, by decide, by decide⟩
theorem splitCommaAux_ne_nil (l acc : List Char) : splitCommaAux l acc ≠ [] := by
  induction l generalizing acc with
  | nil => simp [splitCommaAux]
  | cons ch rest ih =>
    simp only [splitCommaAux]
    by_cases h : ch = ','
    · simp [h]
    · rw [if_neg h]
      exact ih _
theorem splitCommaAux_chars (l : List Char) :
    ∀ (acc : List Char) (t : Str), t ∈ splitCommaAux l acc →
      ∀ c ∈ t, c ∈ l ∨ c ∈ acc := by
  induction l with
  | nil =>
    intro acc t ht c hc
    simp only [splitCommaAux, List.mem_singleton] at ht
    subst ht
    exact Or.inr (List.mem_reverse.1 hc)
  | cons ch rest ih =>
    intro acc t ht c hc
    simp only [splitCommaAux] at ht
    by_cases h : ch = ','
    · rw [if_pos h] at ht
      rcases List.mem_cons.1 ht with rfl | ht2
      · exact Or.inr (List.mem_reverse.1 hc)
      · rcases ih [] t ht2 c hc with h1 | h2
        · exact Or.inl (List.mem_cons_of_mem ch h1)
        · simp at h2
    · rw [if_neg h] at ht
      rcases ih (ch :: acc) t ht c hc with h1 | h2
      · exact Or.inl (List.mem_cons_of_mem ch h1)
      · rcases List.mem_cons.1 h2 with rfl | h3
        · exact Or.inl (List.mem_cons_self _ _)
        · exact Or.inr h3
theorem toLower_not_upper (c : Char) : ¬ isUpperAscii (Char.toLower c) := by
  unfold Char.toLower isUpperAscii
  by_cases h : 65 ≤ c.toNat ∧ c.toNat ≤ 90
  · simp only [ge_iff_le, h, and_self, if_true]
    have hv : (c.toNat + 32).isValidChar := by
      left
      have := h.2
      unfold Char.toNat at *
      omega
    have h2 : (Char.ofNat (c.toNat + 32)).toNat = c.toNat + 32 := by
      simp only [Char.ofNat, hv, dif_pos]
      simp [Char.toNat, Char.ofNatAux, UInt32.toNat, BitVec.toNat_ofNatLt]
    rw [h2]
    omega
  · simp only [ge_iff_le, h, if_false]
    exact not_false
theorem strToLower_not_upper (s : Str) (c : Char) (hc : c ∈ strToLower s) :
    ¬ isUpperAscii c := by
  rcases List.mem_map.1 hc with ⟨d, _, rfl⟩
  exact toLower_not_upper d

/-- C8 amended: every record returned by the single-record store lookup has a
non-empty categories list whose tags contain no ASCII uppercase letter; the
tags are, however, not deduplicated (see the counterexample). -/
theorem c8_amended_lowercase_nonempty (connOk : Bool) (table : List CatalogRow)
    (productID : Str) (p : Product)
    (h : loadSingleProductFromAlloyDB connOk table productID = .ok p) :
    p.categories ≠ [] ∧ ∀ t ∈ p.categories, ∀ c ∈ t, ¬ isUpperAscii c := by
  unfold loadSingleProductFromAlloyDB at h
  by_cases hconn : connOk = false
  · rw [if_pos hconn] at h
    exact absurd h (by simp)
  · rw [if_neg hconn] at h
    cases hfind : table.find? (fun row => decide (row.id = productID)) with
    | none =>
      rw [hfind] at h
      exact absurd h (by simp)
    | some row =>
      rw [hfind] at h
      have hp : rowToProduct row = p := by
        injection h
      subst hp
      constructor
      · exact splitCommaAux_ne_nil _ _
      · intro t ht c hct
        rcases splitCommaAux_chars _ [] t ht c hct with h1 | h2
        · exact strToLower_not_upper _ _ h1
        · simp at h2

/-- Witness for the amended C8 theorem at a concrete successful lookup. -/
theorem c8_amended_witness :
    (rowToProduct dupRow).categories ≠ []
    ∧ ∀ t ∈ (rowToProduct dupRow).categories, ∀ c ∈ t, ¬ isUpperAscii c :=
  c8_amended_lowercase_nonempty true [dupRow] "p2".data (rowToProduct dupRow) rfl

/-- C7 counterexample: the documented hybrid query orders by score alone
(`ORDER BY score ASC`, no secondary key), so two rows with equal scores come
out in scan order — here id "b" before id "a" — not ordered by id. -/
theorem c7_counterexample :
    hybridScore (6/10) (4/10) tieRowB = hybridScore (6/10) (4/10) tieRowA
    ∧ hybridQuery (6/10) (4/10) [tieRowB, tieRowA] = [tieRowB, tieRowA]
    ∧ List.Lex (· < ·) tieRowA.id tieRowB.id := by
  refine ⟨by norm_num [hybridScore, tieRowA, tieRowB], ?_, ?_⟩
  · norm_num [hybridQuery, List.insertionSort, List.orderedInsert, hybridScore,
      tieRowA, tieRowB]
  · exact List.Lex.rel (by decide)

/-- C7 amended: the hybrid query's score is the weighted sum
`wT*distText + wI*distImage` (0.28 at the documented example), and the results
are sorted by this score in ascending order; the order among equal-score rows
is whatever the scan produced, not the id order. -/
theorem c7_amended_hybrid_score_sorted (wT wI : ℚ) (rows : List CatalogItemRow) :
    List.Sorted (fun a b => hybridScore wT wI a ≤ hybridScore wT wI b)
        (hybridQuery wT wI rows)
    ∧ (∀ row, hybridScore wT wI row = wT * row.textDist + wI * row.imageDist)
    ∧ hybridScore (6/10) (4/10) hybridExampleRow = 28/100 := by
  refine ⟨?_, fun row => rfl, by norm_num [hybridScore, hybridExampleRow]⟩
  haveI : IsTotal CatalogItemRow
      (fun a b => hybridScore wT wI a ≤ hybridScore wT wI b) :=
    ⟨fun a b => le_total _ _⟩
  haveI : IsTrans CatalogItemRow
      (fun a b => hybridScore wT wI a ≤ hybridScore wT wI b) :=
    ⟨fun _ _ _ hab hbc => le_trans hab hbc⟩
  exact List.Pairwise.sublist (List.take_sublist 10 _)
    (List.sorted_insertionSort _ _)

theorem ingestProgress_mono (P : IngestParams) {a b : ℕ} (hab : a ≤ b) :
    ingestProgress P a ≤ ingestProgress P b := by
  unfold ingestProgress
  rcases Nat.eq_zero_or_pos P.target with h | h
  · simp [h]
  · exact (div_le_div_iff_of_pos_right (by exact_mod_cast h)).mpr (by exact_mod_cast hab)

theorem capAt_stageA (P : IngestParams) (a : ℕ)
    (h : ingestProgress P a < P.relaxStart) : capAt P a = some P.baseCap := by
  unfold capAt
  rw [if_pos h]

theorem capAt_stageB (P : IngestParams) (a : ℕ)
    (h1 : ¬ ingestProgress P a < P.relaxStart)
    (h2 : ingestProgress P a < P.relaxFinal) :
    capAt P a = some (Nat.ceil ((P.baseCap : ℚ) * P.relaxFactor)) := by
  unfold capAt
  rw [if_neg h1, if_pos h2]

theorem capAt_stageC (P : IngestParams) (a : ℕ)
    (h1 : ¬ ingestProgress P a < P.relaxStart)
    (h2 : ¬ ingestProgress P a < P.relaxFinal) :
    capAt P a = none := by
  unfold capAt
  rw [if_neg h1, if_neg h2]

theorem capAt_none_of_relaxFinal_le (P : IngestParams)
    (hsf : P.relaxStart ≤ P.relaxFinal) (a : ℕ)
    (ha : P.relaxFinal ≤ ingestProgress P a) : capAt P a = none :=
  capAt_stageC P a (not_lt.2 (le_trans hsf ha)) (not_lt.2 ha)

theorem catCount_append_one (st : RunState) (c : Candidate) (cat : ℕ) :
    catCount ⟨c.id :: st.seen, st.accepted ++ [c]⟩ cat
      = catCount st cat + (if c.category = cat then 1 else 0) := by
  unfold catCount
  rw [List.countP_append]
  by_cases h : c.category = cat <;> simp [List.countP_cons, h]

theorem fairInv_accept (P : IngestParams)
    (_hsf : P.relaxStart ≤ P.relaxFinal)
    (hbc : P.baseCap ≤ Nat.ceil ((P.baseCap : ℚ) * P.relaxFactor))
    (st : RunState) (c : Candidate) (hInv : FairInv P st)
    (hok : ∀ cap, capAt P st.accepted.length = some cap →
        catCount st c.category < cap) :
    FairInv P ⟨c.id :: st.seen, st.accepted ++ [c]⟩ := by
  intro cat
  have hmono : ingestProgress P st.accepted.length
      ≤ ingestProgress P (st.accepted.length + 1) :=
    ingestProgress_mono P (Nat.le_succ _)
  have hshape : (⟨c.id :: st.seen, st.accepted ++ [c]⟩ : RunState).accepted.length
      = st.accepted.length + 1 := by simp
  rw [catCount_append_one, hshape]
  constructor
  · intro hpa
    have hp0 : ingestProgress P st.accepted.length < P.relaxStart :=
      lt_of_le_of_lt hmono hpa
    have hclt : catCount st c.category < P.baseCap :=
      hok _ (capAt_stageA P _ hp0)
    have hold : catCount st cat ≤ P.baseCap := (hInv cat).1 hp0
    by_cases hc : c.category = cat
    · subst hc
      simp only [eq_self_iff_true, if_true]
      omega
    · simp only [hc, if_false]
      omega
  · intro hpf
    have hp0f : ingestProgress P st.accepted.length < P.relaxFinal :=
      lt_of_le_of_lt hmono hpf
    have hold : catCount st cat ≤ Nat.ceil ((P.baseCap : ℚ) * P.relaxFactor) :=
      (hInv cat).2 hp0f
    have hclt : catCount st c.category < Nat.ceil ((P.baseCap : ℚ) * P.relaxFactor) := by
      by_cases hp0 : ingestProgress P st.accepted.length < P.relaxStart
      · exact lt_of_lt_of_le (hok _ (capAt_stageA P _ hp0)) hbc
      · exact hok _ (capAt_stageB P _ hp0 hp0f)
    by_cases hc : c.category = cat
    · subst hc
      simp only [eq_self_iff_true, if_true]
      omega
    · simp only [hc, if_false]
      omega

theorem fairInv_step (P : IngestParams) (db : List ℕ)
    (hsf : P.relaxStart ≤ P.relaxFinal)
    (hbc : P.baseCap ≤ Nat.ceil ((P.baseCap : ℚ) * P.relaxFactor))
    (st : RunState) (c : Candidate) (hInv : FairInv P st) :
    FairInv P (ingestStep P db st c) := by
  unfold ingestStep
  split_ifs with h1 h2 h3 h4
  · exact hInv
  · exact hInv
  · exact fun cat => hInv cat
  · exact fun cat => hInv cat
  · split
    · rename_i cap hcap
      by_cases hlt : catCount st c.category < cap
      · rw [if_pos hlt]
        exact fairInv_accept P hsf hbc st c hInv
          (fun k hk => by
            rw [hcap] at hk
            exact (Option.some.inj hk) ▸ hlt)
      · rw [if_neg hlt]
        exact fun cat => hInv cat
    · rename_i hcap
      -- stage C: progress already at or past relaxFinal, both bounds are vacuous
      intro cat
      have hmono : ingestProgress P st.accepted.length
          ≤ ingestProgress P (st.accepted.length + 1) :=
        ingestProgress_mono P (Nat.le_succ _)
      have hshape : (⟨c.id :: st.seen, st.accepted ++ [c]⟩ : RunState).accepted.length
          = st.accepted.length + 1 := by simp
      have hge : P.relaxFinal ≤ ingestProgress P st.accepted.length := by
        by_contra hcon
        push_neg at hcon
        by_cases hp0 : ingestProgress P st.accepted.length < P.relaxStart
        · rw [capAt_stageA P _ hp0] at hcap
          exact absurd hcap (by simp)
        · rw [capAt_stageB P _ hp0 hcon] at hcap
          exact absurd hcap (by simp)
      rw [hshape]
      constructor
      · intro hpa
        exact absurd hpa (not_lt.2 (le_trans (le_trans hsf hge) hmono))
      · intro hpf
        exact absurd hpf (not_lt.2 (le_trans hge hmono))

theorem fairInv_runIngest (P : IngestParams) (db : List ℕ)
    (hsf : P.relaxStart ≤ P.relaxFinal)
    (hbc : P.baseCap ≤ Nat.ceil ((P.baseCap : ℚ) * P.relaxFactor))
    (cands : List Candidate) : FairInv P (runIngest P db cands) := by
  have hgen : ∀ (l : List Candidate) (st : RunState), FairInv P st →
      FairInv P (l.foldl (ingestStep P db) st) := by
    intro l
    induction l with
    | nil => exact fun st h => h
    | cons c rest ih => exact fun st h => ih _ (fairInv_step P db hsf hbc st c h)
  exact hgen cands ⟨[], []⟩ (fun cat => by constructor <;> intro _ <;> simp [catCount])

theorem capTop_monotone (P : IngestParams)
    (_hsf : P.relaxStart ≤ P.relaxFinal)
    (hbc : P.baseCap ≤ Nat.ceil ((P.baseCap : ℚ) * P.relaxFactor)) :
    Monotone (capTop P) := by
  intro a b hab
  have hpm := ingestProgress_mono P hab
  by_cases h1 : ingestProgress P a < P.relaxStart
  · by_cases h2 : ingestProgress P b < P.relaxStart
    · simp [capTop, capAt_stageA P a h1, capAt_stageA P b h2]
    · by_cases h3 : ingestProgress P b < P.relaxFinal
      · simp only [capTop, capAt_stageA P a h1, capAt_stageB P b h2 h3]
        exact_mod_cast hbc
      · simp [capTop, capAt_stageA P a h1, capAt_stageC P b h2 h3]
  · have h2 : ¬ ingestProgress P b < P.relaxStart := fun hb =>
      h1 (lt_of_le_of_lt hpm hb)
    by_cases h3 : ingestProgress P a < P.relaxFinal
    · by_cases h4 : ingestProgress P b < P.relaxFinal
      · simp [capTop, capAt_stageB P a h1 h3, capAt_stageB P b h2 h4]
      · simp [capTop, capAt_stageB P a h1 h3, capAt_stageC P b h2 h4]
    · have h4 : ¬ ingestProgress P b < P.relaxFinal := fun hb =>
        h3 (lt_of_le_of_lt hpm hb)
      simp [capTop, capAt_stageC P a h1 h3, capAt_stageC P b h2 h4]

/-- C5 (spec-modelled; the importer itself, tools/import_products.py, is not in
the source tree — the ingestion loop is modelled from tools/catalog-importer.md
§Ingestion Logic): with `baseCap = 5`, `relaxStart = 0.5`, `relaxFactor = 1.5`,
at every point of a run no category exceeds 5 accepted items while progress is
below 0.5, none exceeds `ceil(5*1.5) = 8` while progress is below relax-final,
no per-category bound applies once progress reaches relax-final, and the staged
cap never decreases as the run progresses. -/
theorem c5_category_fairness (target : ℕ) (relaxFinal : ℚ) (db : List ℕ)
    (cands : List Candidate) (n : ℕ) (cat : ℕ)
    (hrf : (1:ℚ)/2 ≤ relaxFinal) :
    Nat.ceil ((5:ℚ) * (3/2)) = 8
    ∧ (ingestProgress (fairnessParams target relaxFinal)
          (runIngest (fairnessParams target relaxFinal) db (cands.take n)).accepted.length
            < 1/2 →
        catCount (runIngest (fairnessParams target relaxFinal) db (cands.take n)) cat
          ≤ 5)
    ∧ (ingestProgress (fairnessParams target relaxFinal)
          (runIngest (fairnessParams target relaxFinal) db (cands.take n)).accepted.length
            < relaxFinal →
        catCount (runIngest (fairnessParams target relaxFinal) db (cands.take n)) cat
          ≤ 8)
    ∧ (∀ a, relaxFinal ≤ ingestProgress (fairnessParams target relaxFinal) a →
        capAt (fairnessParams target relaxFinal) a = none)
    ∧ Monotone (capTop (fairnessParams target relaxFinal)) := by
  have hceil : Nat.ceil ((5:ℚ) * (3/2)) = 8 := by norm_num [Nat.ceil_eq_iff]
  have hceilP : Nat.ceil (((fairnessParams target relaxFinal).baseCap : ℚ)
      * (fairnessParams target relaxFinal).relaxFactor) = 8 := by
    show Nat.ceil (((5:ℕ) : ℚ) * (3/2)) = 8
    norm_num [Nat.ceil_eq_iff]
  have hsf : (fairnessParams target relaxFinal).relaxStart
      ≤ (fairnessParams target relaxFinal).relaxFinal := hrf
  have hbc : (fairnessParams target relaxFinal).baseCap
      ≤ Nat.ceil (((fairnessParams target relaxFinal).baseCap : ℚ)
          * (fairnessParams target relaxFinal).relaxFactor) := by
    rw [hceilP]
    norm_num [fairnessParams]
  have hinv := fairInv_runIngest (fairnessParams target relaxFinal) db hsf hbc
    (cands.take n)
  refine ⟨hceil, ?_, ?_, ?_, capTop_monotone _ hsf hbc⟩
  · exact (hinv cat).1
  · intro hp
    have h8 := (hinv cat).2 hp
    rwa [hceilP] at h8
  · intro a ha
    exact capAt_none_of_relaxFinal_le _ hsf a ha

/-- Witness for C5 at concrete run parameters. -/
theorem c5_witness :
    Nat.ceil ((5:ℚ) * (3/2)) = 8
    ∧ Monotone (capTop (fairnessParams 10 (9/10))) := by
  have h := c5_category_fairness 10 (9/10) [] [] 0 0 (by norm_num)
  exact ⟨h.1, h.2.2.2.2⟩

theorem ingestStep_accepted_invalid (P : IngestParams) (db : List ℕ)
    (st : RunState) (c : Candidate) (hc : c.valid = false) :
    (ingestStep P db st c).accepted = st.accepted := by
  unfold ingestStep
  split_ifs <;> rfl

theorem foldl_accepted_invalid (P : IngestParams) (db : List ℕ) :
    ∀ (l : List Candidate), (∀ c ∈ l, c.valid = false) →
      ∀ st, (l.foldl (ingestStep P db) st).accepted = st.accepted := by
  intro l
  induction l with
  | nil => intro _ st; rfl
  | cons c rest ih =>
    intro hl st
    rw [List.foldl_cons, ih (fun d hd => hl d (List.mem_cons_of_mem c hd)),
      ingestStep_accepted_invalid P db st c (hl c (List.mem_cons_self _ _))]

theorem foldl_accept_fresh (P : IngestParams) (db : List ℕ)
    (hcappos : ∀ a k, capAt P a = some k → 0 < k) :
    ∀ (l : List Candidate) (st : RunState),
      (∀ c ∈ l, c.valid = true) →
      (∀ c ∈ l, c.id ∉ db) →
      (∀ c ∈ l, c.id ∉ st.seen) →
      l.Pairwise (fun a b => a.id ≠ b.id) →
      (∀ c ∈ l, catCount st c.category = 0) →
      l.Pairwise (fun a b => a.category ≠ b.category) →
      st.accepted.length + l.length ≤ P.target →
      (l.foldl (ingestStep P db) st).accepted.length
        = st.accepted.length + l.length := by
  intro l
  induction l with
  | nil => intro st _ _ _ _ _ _ _; simp
  | cons c rest ih =>
    intro st hv hdb hseen hids hcat0 hcats hlen
    have hlen2 : st.accepted.length + 1 + rest.length ≤ P.target := by
      simp only [List.length_cons] at hlen
      omega
    have hstep : ingestStep P db st c = ⟨c.id :: st.seen, st.accepted ++ [c]⟩ := by
      have hA : ¬ st.accepted.length = P.target := by omega
      have hB : ¬ c.id ∈ st.seen := hseen c (List.mem_cons_self _ _)
      have hC : ¬ c.id ∈ db := hdb c (List.mem_cons_self _ _)
      have hD : ¬ c.valid = false := by
        simp [hv c (List.mem_cons_self _ _)]
      unfold ingestStep
      rw [if_neg hA, if_neg hB, if_neg hC, if_neg hD]
      split
      · rename_i cap hcap
        rw [if_pos]
        rw [hcat0 c (List.mem_cons_self _ _)]
        exact hcappos _ _ hcap
      · rfl
    have hpairids := List.pairwise_cons.1 hids
    have hpaircats := List.pairwise_cons.1 hcats
    rw [List.foldl_cons, hstep]
    have hrec := ih ⟨c.id :: st.seen, st.accepted ++ [c]⟩
      (fun d hd => hv d (List.mem_cons_of_mem c hd))
      (fun d hd => hdb d (List.mem_cons_of_mem c hd))
      (fun d hd hmem => by
        rcases List.mem_cons.1 hmem with heq | hrest
        · exact hpairids.1 d hd heq.symm
        · exact hseen d (List.mem_cons_of_mem c hd) hrest)
      hpairids.2
      (fun d hd => by
        rw [catCount_append_one]
        rw [hcat0 d (List.mem_cons_of_mem c hd)]
        simp [hpaircats.1 d hd])
      hpaircats.2
      (by simpa using hlen2)
    rw [hrec]
    simp only [List.length_append, List.length_cons, List.length_nil]
    omega

theorem capAt_fairness_pos (target : ℕ) (relaxFinal : ℚ) :
    ∀ a k, capAt (fairnessParams target relaxFinal) a = some k → 0 < k := by
  intro a k h
  unfold capAt at h
  split_ifs at h
  · have h5 : (fairnessParams target relaxFinal).baseCap = k := Option.some.inj h
    have : (5:ℕ) = k := h5
    omega
  · have h8 : Nat.ceil (((fairnessParams target relaxFinal).baseCap : ℚ)
        * (fairnessParams target relaxFinal).relaxFactor) = k := Option.some.inj h
    have hpos : 0 < Nat.ceil (((5:ℕ) : ℚ) * ((3:ℚ)/2)) :=
      Nat.ceil_pos.mpr (by norm_num)
    have : 0 < Nat.ceil (((fairnessParams target relaxFinal).baseCap : ℚ)
        * (fairnessParams target relaxFinal).relaxFactor) := hpos
    omega

theorem runImport_accepted (P : IngestParams) (db : List ℕ) (cands : List Candidate) :
    (runImport P db cands).accepted = (runIngest P db cands).accepted := rfl

theorem runImport_warning (P : IngestParams) (db : List ℕ) (cands : List Candidate) :
    (runImport P db cands).underfillWarning
      = decide ((runIngest P db cands).accepted.length < P.target) := rfl

/-- C6 (spec-modelled; the importer itself, tools/import_products.py, is not in
the source tree — the ingestion loop is modelled from tools/catalog-importer.md
§Ingestion Logic): an ingestion run always terminates with an outcome holding
the records accepted so far; the under-fill warning is raised exactly when the
accepted count fell short of the target (never an error), and ingesting 1000
candidates of which 950 are valid and unique against target 1000 yields exactly
950 accepted records with the warning raised. -/
theorem c6_underfill_warning :
    (∀ (P : IngestParams) (db : List ℕ) (cands : List Candidate),
        (runImport P db cands).underfillWarning = true
          ↔ (runImport P db cands).accepted.length < P.target)
    ∧ (∀ (P : IngestParams) (db : List ℕ) (cands : List Candidate),
        (runImport P db cands).accepted = (runIngest P db cands).accepted)
    ∧ (runImport scenarioParams [] scenarioCands).accepted.length = 950
    ∧ (runImport scenarioParams [] scenarioCands).underfillWarning = true := by
  have hlen : (runIngest scenarioParams [] scenarioCands).accepted.length = 950 := by
    unfold runIngest scenarioCands
    rw [List.foldl_append]
    rw [foldl_accepted_invalid scenarioParams [] _
      (fun c hc => by
        rcases List.mem_map.1 hc with ⟨i, _, rfl⟩
        rfl) _]
    have h950 := foldl_accept_fresh scenarioParams [] (capAt_fairness_pos 1000 (9/10))
      ((List.range 950).map (fun i => ⟨i, i, true⟩)) ⟨[], []⟩
      (fun c hc => by rcases List.mem_map.1 hc with ⟨i, _, rfl⟩; rfl)
      (fun c _ hmem => by simp at hmem)
      (fun c _ hmem => by simp at hmem)
      (List.pairwise_map.mpr ((List.pairwise_lt_range 950).imp
        (fun hij => Nat.ne_of_lt hij)))
      (fun c _ => rfl)
      (List.pairwise_map.mpr ((List.pairwise_lt_range 950).imp
        (fun hij => Nat.ne_of_lt hij)))
      (by simp [scenarioParams, fairnessParams])
    rw [h950]
    simp
  refine ⟨?_, fun P db cands => rfl, ?_, ?_⟩
  · intro P db cands
    simp [runImport]
  · rw [runImport_accepted]
    exact hlen
  · rw [runImport_warning, hlen]
    rfl
